import Mathlib

/-!
# SimTradeLab core — shallow embedding

A shallow embedding of the simulation core of SimTradeLab:
the portfolio ledger with FIFO tax lots (`src/simtradelab/ptrade/object.py`,
class `Portfolio`), the blotter order resolution loop
(`object.py`, `Blotter.process_orders`), the unified order processor
(`src/simtradelab/ptrade/order_processor.py`, class `OrderProcessor`),
the lifecycle phase machine
(`src/simtradelab/ptrade/lifecycle_controller.py`, `LifecycleController`)
and the daily orchestration order
(`src/simtradelab/ptrade/strategy_engine.py`, `StrategyEngine`).

Python floats are modelled as rationals (`ℚ`); dates as integers counting
days, so that `(sell_date - lot.date).days` becomes integer subtraction.
Python exceptions are modelled with `Except String`; a raised exception
propagates before any mutation in the modelled methods, so an `.error`
result denotes an unchanged ledger.  Python dicts are modelled as
functions `String → Option _` (lookup / insert / delete are the only dict
operations the modelled code performs on them, apart from the dividend
loop which is modelled per key).
-/

namespace SimTradeLab

/-- Update one key of a dict modelled as a lookup function. -/
def mapSet {α : Type} (m : String → Option α) (k : String) (v : α) : String → Option α :=
  fun s => if s = k then some v else m s

/-- Delete one key of a dict modelled as a lookup function. -/
def mapDel {α : Type} (m : String → Option α) (k : String) : String → Option α :=
  fun s => if s = k then none else m s

@[simp] theorem mapSet_same {α : Type} (m : String → Option α) (k : String) (v : α) :
    mapSet m k v k = some v := by simp [mapSet]

theorem mapSet_other {α : Type} (m : String → Option α) (k : String) (v : α)
    (s : String) (h : s ≠ k) : mapSet m k v s = m s := by simp [mapSet, h]

@[simp] theorem mapDel_same {α : Type} (m : String → Option α) (k : String) :
    mapDel m k k = none := by simp [mapDel]

theorem mapDel_other {α : Type} (m : String → Option α) (k : String)
    (s : String) (h : s ≠ k) : mapDel m k s = m s := by simp [mapDel, h]

/-- `int()` of Python applied to a rational: truncation toward zero.
For the non-negative quantities it is applied to in the source
(`daily_volume * volume_ratio`), it is the floor. -/
def pyIntOfRat (q : ℚ) : ℤ :=
  if q < 0 then ⌈q⌉ else ⌊q⌋

/-- One purchase lot, as stored in `Portfolio._position_lots[stock]`
(a dict with keys `date`, `amount`, `dividends`, `dividends_total`). -/
structure Lot where
  date : ℤ
  amount : ℚ
  dividends : List ℚ
  dividends_total : ℚ
deriving Repr, DecidableEq

/-- `Position.__init__` of `object.py`: symbol-independent numeric fields. -/
structure Position where
  amount : ℚ
  cost_basis : ℚ
  enable_amount : ℚ
  last_sale_price : ℚ
  market_value : ℚ
deriving Repr, DecidableEq, Inhabited

/-- `Position(stock, amount, cost_basis)` constructor of `object.py`. -/
def Position.make (amount cost_basis : ℚ) : Position :=
  ⟨amount, cost_basis, amount, cost_basis, amount * cost_basis⟩

/-- The state of a `Portfolio` of `object.py`: cash, the `positions` dict
and the `_position_lots` dict. -/
structure Portfolio where
  cash : ℚ
  positions : String → Option Position
  position_lots : String → Option (List Lot)

/-- A fresh `Portfolio(initial_capital)`. -/
def Portfolio.make (initial_capital : ℚ) : Portfolio :=
  ⟨initial_capital, fun _ => none, fun _ => none⟩

/-- `Portfolio.add_position` of `object.py`: create the position and a
first lot, or grow the position with volume-weighted cost and append a
new lot.  (In the source the append would raise `KeyError` were the lots
key absent while the position exists; that state is unreachable, and the
model appends to the empty list there.) -/
def Portfolio.add_position (p : Portfolio) (stock : String) (amount price : ℚ)
    (date : ℤ) : Portfolio :=
  match p.positions stock with
  | none =>
      { p with
        positions := mapSet p.positions stock (Position.make amount price),
        position_lots := mapSet p.position_lots stock [⟨date, amount, [], 0⟩] }
  | some position =>
      let new_amount := position.amount + amount
      let new_cost := (position.amount * position.cost_basis + amount * price) / new_amount
      let position' : Position :=
        ⟨new_amount, new_cost, new_amount, position.last_sale_price, new_amount * new_cost⟩
      let lots' := ((p.position_lots stock).getD []) ++ [⟨date, amount, [], 0⟩]
      { p with
        positions := mapSet p.positions stock position',
        position_lots := mapSet p.position_lots stock lots' }

/-- The while-loop of `Portfolio._calculate_dividend_tax`: walk the lots
oldest-first while `remaining > 0`, popping fully consumed lots and
shrinking the first partially consumed one, accumulating the tax
adjustment `dividends_total * ratio * (actual_rate - 0.20)`. -/
def consumeLots (sell_date : ℤ) : List Lot → ℚ → List Lot × ℚ
  | [], _ => ([], 0)
  | lot :: rest, remaining =>
    if remaining ≤ 0 then (lot :: rest, 0)
    else
      let holding_days := sell_date - lot.date
      let actual_rate : ℚ :=
        if holding_days ≤ 30 then 1/5 else if holding_days ≤ 365 then 1/10 else 0
      let sell_qty := min remaining lot.amount
      let ratio := sell_qty / lot.amount
      let lot_div_total := lot.dividends_total
      let adj := lot_div_total * ratio * (actual_rate - 1/5)
      if lot.amount ≤ remaining then
        let res := consumeLots sell_date rest (remaining - lot.amount)
        (res.1, adj + res.2)
      else
        (⟨lot.date, lot.amount - remaining, lot.dividends,
           lot_div_total * (1 - ratio)⟩ :: rest, adj)

/-- `Portfolio._calculate_dividend_tax`: returns the mutated lots dict and
the signed tax adjustment; a symbol with no lots yields 0. -/
def Portfolio.calculate_dividend_tax (p : Portfolio) (stock : String) (amount : ℚ)
    (sell_date : ℤ) : (String → Option (List Lot)) × ℚ :=
  match p.position_lots stock with
  | none => (p.position_lots, 0)
  | some lots =>
      let res := consumeLots sell_date lots amount
      (mapSet p.position_lots stock res.1, res.2)

/-- `Portfolio.remove_position` of `object.py`.  A missing position
returns 0.0 without error; an oversell raises `ValueError` (modelled as
`.error`, raised before any mutation); otherwise the FIFO tax adjustment
is computed and the position is deleted or shrunk. -/
def Portfolio.remove_position (p : Portfolio) (stock : String) (amount : ℚ)
    (sell_date : ℤ) : Except String (Portfolio × ℚ) :=
  match p.positions stock with
  | none => .ok (p, 0)
  | some position =>
    if amount > position.amount then
      .error ("sell amount exceeds holding: " ++ stock)
    else
      let tc := p.calculate_dividend_tax stock amount sell_date
      if position.amount = amount then
        .ok ({ p with
                positions := mapDel p.positions stock,
                position_lots := mapDel tc.1 stock }, tc.2)
      else
        let position' : Position :=
          ⟨position.amount - amount, position.cost_basis,
           position.enable_amount - amount, position.last_sale_price,
           (position.amount - amount) * position.cost_basis⟩
        .ok ({ p with
                positions := mapSet p.positions stock position',
                position_lots := tc.1 }, tc.2)

/-- `Portfolio.add_dividend` of `object.py`: distribute the per-share
amount into every lot of the symbol. -/
def Portfolio.add_dividend (p : Portfolio) (stock : String)
    (dividend_per_share : ℚ) : Portfolio :=
  match p.position_lots stock with
  | none => p
  | some lots =>
      let lots' := lots.map fun lot =>
        let lot_div := dividend_per_share * lot.amount
        ⟨lot.date, lot.amount, lot.dividends ++ [lot_div], lot.dividends_total + lot_div⟩
      { p with position_lots := mapSet p.position_lots stock lots' }

/-- The per-position body of `StrategyEngine._process_dividend_events`:
skip non-positive holdings, credit `before_tax * (1 - 0.20) * amount` to
cash and record the pre-tax per-share amount into the lots. -/
def processDividendForStock (p : Portfolio) (stock : String)
    (dividend_per_share_before_tax : ℚ) : Portfolio :=
  match p.positions stock with
  | none => p
  | some position =>
    if position.amount ≤ 0 then p
    else
      let pre_tax_rate : ℚ := 1/5
      let dividend_per_share_after_tax := dividend_per_share_before_tax * (1 - pre_tax_rate)
      let total_dividend_after_tax := dividend_per_share_after_tax * position.amount
      if total_dividend_after_tax > 0 then
        Portfolio.add_dividend { p with cash := p.cash + total_dividend_after_tax }
          stock dividend_per_share_before_tax
      else p

/-- The trading configuration consumed by `OrderProcessor` and
`Blotter.process_orders` (fields of `TradingConfig` in
`config_manager.py`, plus the `tax_rate` attribute read off the
context with default 0.001). -/
structure TradingParams where
  commission_ratio : ℚ
  min_commission : ℚ
  slippage : ℚ
  fixed_slippage : ℚ
  volume_ratio : ℚ
  limit_mode : String
  tax_rate : ℚ
deriving Repr, DecidableEq

/-- The `TradingConfig` defaults of `config_manager.py`
(`commission_ratio` 0.0003, `min_commission` 5.0, `slippage` 0.001,
`fixed_slippage` 0.0, `volume_ratio` 0.25, `limit_mode` LIMIT) together
with the `tax_rate` default 0.001 of `order_processor.py`. -/
def defaultTradingParams : TradingParams :=
  ⟨3/10000, 5, 1/1000, 0, 1/4, "LIMIT", 1/1000⟩

/-- `OrderProcessor.calculate_commission`: zero commission ratio means no
fee at all; otherwise broker fee with minimum, transfer fee 0.0000487,
and stamp tax 0.001 on sells. -/
def calculate_commission (tp : TradingParams) (amount price : ℚ) (is_sell : Bool) : ℚ :=
  if tp.commission_ratio = 0 then 0
  else
    let value := amount * price
    let broker_fee := max (value * tp.commission_ratio) tp.min_commission
    let transfer_fee := value * (487/10000000)
    let commission := broker_fee + transfer_fee
    if is_sell then commission + value * tp.tax_rate else commission

/-- `OrderProcessor.get_execution_price`: base price is the limit price
if given, else the market close (rejected when missing or non-positive);
slippage is proportional (`base * s / 2`) when `slippage > 0`, else fixed
(`f / 2`) when `fixed_slippage > 0`, else zero; applied `+` for buys and
`-` for sells. -/
def get_execution_price (tp : TradingParams) (limit_price : Option ℚ)
    (close_price : Option ℚ) (is_buy : Bool) : Option ℚ :=
  let base? : Option ℚ :=
    match limit_price with
    | some lp => some lp
    | none =>
      match close_price with
      | some c => if c ≤ 0 then none else some c
      | none => none
  match base? with
  | none => none
  | some base_price =>
    let slippage_amount :=
      if tp.slippage > 0 then base_price * tp.slippage / 2
      else if tp.fixed_slippage > 0 then tp.fixed_slippage / 2
      else 0
    some (if is_buy then base_price + slippage_amount else base_price - slippage_amount)

/-- `OrderProcessor.execute_buy`: reject when `cost + commission`
exceeds cash, else debit cash by exactly that total and add the
position. -/
def execute_buy (tp : TradingParams) (p : Portfolio) (stock : String)
    (amount price : ℚ) (current_dt : ℤ) : Portfolio × Bool :=
  let cost := amount * price
  let commission := calculate_commission tp amount price false
  let total_cost := cost + commission
  if total_cost > p.cash then (p, false)
  else
    (Portfolio.add_position { p with cash := p.cash - total_cost } stock amount price current_dt,
     true)

/-- `OrderProcessor.execute_sell`: reject when there is no position or
the position is smaller than the request; else remove the shares (FIFO
tax adjustment), update the surviving position's price fields, and
credit `revenue - commission - tax_adjustment` to cash. -/
def execute_sell (tp : TradingParams) (p : Portfolio) (stock : String)
    (amount price : ℚ) (current_dt : ℤ) : Except String (Portfolio × Bool) :=
  match p.positions stock with
  | none => .ok (p, false)
  | some position =>
    if position.amount < amount then .ok (p, false)
    else
      let revenue := amount * price
      let commission := calculate_commission tp amount price true
      match p.remove_position stock amount current_dt with
      | .error e => .error e
      | .ok pr =>
        let p1 := pr.1
        let tax_adjustment := pr.2
        let net_revenue := revenue - commission - tax_adjustment
        let p2 :=
          match p1.positions stock with
          | none => p1
          | some pos' =>
            let pos'' : Position :=
              if pos'.amount > 0 then
                ⟨pos'.amount, pos'.cost_basis, pos'.enable_amount, price, pos'.amount * price⟩
              else
                ⟨pos'.amount, pos'.cost_basis, pos'.enable_amount, price, pos'.market_value⟩
            { p1 with positions := mapSet p1.positions stock pos'' }
        .ok ({ p2 with cash := p2.cash + net_revenue }, true)

/-- `OrderProcessor.process_order`: price discovery (note the source
calls `get_execution_price(stock, limit_price)` leaving `is_buy` at its
default `True` for sells as well), delta computation against the current
holding, limit-up and limit-down checks, then buy or sell execution. -/
def process_order (tp : TradingParams) (p : Portfolio) (stock : String)
    (target_amount : ℚ) (limit_price : Option ℚ) (close_price : Option ℚ)
    (limit_status : ℤ) (current_dt : ℤ) : Except String (Portfolio × Bool) :=
  match get_execution_price tp limit_price close_price true with
  | none => .ok (p, false)
  | some price =>
    let current_amount :=
      match p.positions stock with
      | some pos => pos.amount
      | none => 0
    let delta := target_amount - current_amount
    if delta = 0 then .ok (p, true)
    else if delta > 0 ∧ limit_status = 1 then .ok (p, false)
    else if delta < 0 ∧ limit_status = -1 then .ok (p, false)
    else if delta > 0 then .ok (execute_buy tp p stock delta price current_dt)
    else execute_sell tp p stock |delta| price current_dt

/-- An order as handled by `Blotter.process_orders` (`Order` of
`object.py`: integer signed amount, integer filled, string status). -/
structure BOrder where
  symbol : String
  amount : ℤ
  filled : ℤ
  status : String
deriving Repr, DecidableEq

/-- The outcome of one iteration of the `Blotter.process_orders` loop:
the mutated portfolio, the mutated order, whether the order was appended
to `executed_orders`, and whether it was removed from `open_orders`. -/
structure BlotterStep where
  portfolio : Portfolio
  order : BOrder
  executed : Bool
  removed : Bool

/-- The LIMIT-mode volume cap `max_allowed = int(daily_volume *
volume_ratio)` of `Blotter.process_orders`. -/
def blotter_max_allowed (tp : TradingParams) (daily_volume : ℚ) : ℤ :=
  pyIntOfRat (daily_volume * tp.volume_ratio)

/-- The signed quantity `actual_amount` after applying the LIMIT-mode
volume cap in `Blotter.process_orders` (the requested amount when the
cap does not bind or the mode is not LIMIT). -/
def blotter_actual_amount (tp : TradingParams) (order : BOrder)
    (daily_volume : ℚ) : ℤ :=
  if tp.limit_mode = "LIMIT" ∧ |order.amount| > blotter_max_allowed tp daily_volume then
    (if order.amount > 0 then blotter_max_allowed tp daily_volume
     else -(blotter_max_allowed tp daily_volume))
  else order.amount

/-- The buy section of the `Blotter.process_orders` loop: no commission;
rejected silently (order removed, status untouched) when the cost
exceeds cash. -/
def blotter_buy_step (p : Portfolio) (order : BOrder) (actual_amount : ℤ)
    (execution_price : ℚ) (current_dt : ℤ) : BlotterStep :=
  let cost := (actual_amount : ℚ) * execution_price
  if cost ≤ p.cash then
    ⟨Portfolio.add_position { p with cash := p.cash - cost }
       order.symbol (actual_amount : ℚ) execution_price current_dt,
     { order with status := "filled", filled := actual_amount }, true, true⟩
  else
    ⟨p, order, false, true⟩

/-- The sell section of the `Blotter.process_orders` loop: the entire
held position (`sell_qty = position.amount`) is removed regardless of
`actual_amount`, the gross revenue `sell_qty * execution_price` is
credited with no commission or tax (the tax adjustment returned by
`remove_position` is discarded), and the order is marked filled with
`filled = actual_amount`. -/
def blotter_sell_step (p : Portfolio) (order : BOrder) (actual_amount : ℤ)
    (execution_price : ℚ) (current_dt : ℤ) : Except String BlotterStep :=
  match p.positions order.symbol with
  | none => .ok ⟨p, order, false, true⟩
  | some position =>
    let sell_qty := position.amount
    match p.remove_position order.symbol sell_qty current_dt with
    | .error e => .error e
    | .ok pr =>
      let p1 := pr.1
      let sell_revenue := sell_qty * execution_price
      let p2 := { p1 with cash := p1.cash + sell_revenue }
      let p3 :=
        match p2.positions order.symbol with
        | none => p2
        | some pos' =>
          let pos'' : Position :=
            ⟨pos'.amount, pos'.cost_basis, pos'.enable_amount,
             execution_price, pos'.amount * execution_price⟩
          { p2 with positions := mapSet p2.positions order.symbol pos'' }
      .ok ⟨p3, { order with status := "filled", filled := actual_amount }, true, true⟩

/-- The body of the `Blotter.process_orders` loop for one order, given
the day's close price and volume for its symbol (`close_price = none`
models a symbol whose price is unavailable: the order is skipped and
stays open).  Stages: price check, LIMIT-mode volume cap (entire
rejection when the cap binds and is non-positive), limit-up and
limit-down checks, then the buy or sell section. -/
def blotter_process_order (tp : TradingParams) (p : Portfolio) (order : BOrder)
    (close_price : Option ℚ) (daily_volume : ℚ) (limit_status : ℤ)
    (current_dt : ℤ) : Except String BlotterStep :=
  match close_price with
  | none => .ok ⟨p, order, false, false⟩
  | some execution_price =>
    if execution_price ≤ 0 then .ok ⟨p, order, false, false⟩
    else if tp.limit_mode = "LIMIT" ∧ |order.amount| > blotter_max_allowed tp daily_volume
        ∧ ¬ blotter_max_allowed tp daily_volume > 0 then
      .ok ⟨p, { order with status := "failed" }, false, true⟩
    else if order.amount > 0 ∧ limit_status = 1 then
      .ok ⟨p, { order with status := "failed" }, false, true⟩
    else if order.amount < 0 ∧ limit_status = -1 then
      .ok ⟨p, { order with status := "failed" }, false, true⟩
    else if blotter_actual_amount tp order daily_volume > 0 then
      .ok (blotter_buy_step p order (blotter_actual_amount tp order daily_volume)
            execution_price current_dt)
    else if blotter_actual_amount tp order daily_volume < 0 then
      blotter_sell_step p order (blotter_actual_amount tp order daily_volume)
        execution_price current_dt
    else
      .ok ⟨p, order, false, false⟩

/-- `LifecyclePhase` of `lifecycle_controller.py`. -/
inductive LifecyclePhase where
  | INITIALIZE
  | BEFORE_TRADING_START
  | HANDLE_DATA
  | AFTER_TRADING_END
  | TICK_DATA
  | ON_ORDER_RESPONSE
  | ON_TRADE_RESPONSE
deriving Repr, DecidableEq, BEq

/-- The `allowed_transitions` table of
`LifecycleController._validate_phase_transition`. -/
def allowed_transitions : Option LifecyclePhase → List LifecyclePhase
  | none => [.INITIALIZE]
  | some .INITIALIZE => [.BEFORE_TRADING_START, .HANDLE_DATA]
  | some .BEFORE_TRADING_START => [.HANDLE_DATA, .TICK_DATA]
  | some .HANDLE_DATA =>
      [.HANDLE_DATA, .TICK_DATA, .AFTER_TRADING_END, .ON_ORDER_RESPONSE, .ON_TRADE_RESPONSE]
  | some .TICK_DATA => [.TICK_DATA, .HANDLE_DATA, .ON_ORDER_RESPONSE, .ON_TRADE_RESPONSE]
  | some .ON_ORDER_RESPONSE => [.HANDLE_DATA, .TICK_DATA, .ON_TRADE_RESPONSE]
  | some .ON_TRADE_RESPONSE => [.HANDLE_DATA, .TICK_DATA]
  | some .AFTER_TRADING_END => [.BEFORE_TRADING_START, .INITIALIZE]

/-- The mutable state of a `LifecycleController` relevant to
`set_phase`: the current phase and the set of phases executed so far. -/
structure ControllerState where
  current_phase : Option LifecyclePhase
  phase_executed : List LifecyclePhase
deriving Repr, DecidableEq

/-- `LifecycleController.set_phase`: validate the edge against the
transition table (`PTradeLifecycleError` raised before any mutation on
an invalid edge, leaving the state unchanged), then update the current
phase and record it as executed. -/
def set_phase (st : ControllerState) (phase : LifecyclePhase) :
    Except String ControllerState :=
  if (allowed_transitions st.current_phase).contains phase then
    .ok ⟨some phase,
         if st.phase_executed.contains phase then st.phase_executed
         else st.phase_executed ++ [phase]⟩
  else .error "Invalid phase transition"

/-- The observable events of one iteration of
`StrategyEngine._run_daily_loop` (one simulated trading day). -/
inductive DailyEvent where
  | clear_daily_cache
  | collect_pre_trading
  | transition (phase : LifecyclePhase)
  | strategy_callback (phase : LifecyclePhase)
  | process_dividend_events
  | collect_trading_amounts
  | collect_post_trading
deriving Repr, DecidableEq, BEq

/-- `StrategyEngine._safe_call`: the phase transition always precedes
the callback invocation. -/
def safe_call_trace (phase : LifecyclePhase) : List DailyEvent :=
  [.transition phase, .strategy_callback phase]

/-- `StrategyEngine._execute_lifecycle` on the success path:
before_trading_start, handle_data, after_trading_end in order. -/
def execute_lifecycle_trace : List DailyEvent :=
  safe_call_trace .BEFORE_TRADING_START ++ safe_call_trace .HANDLE_DATA ++
    safe_call_trace .AFTER_TRADING_END

/-- One iteration of `StrategyEngine._run_daily_loop` on the success
path: cache clearing and pre-trade statistics, the lifecycle
(`_execute_lifecycle`), then `_process_dividend_events`, then the
trading-amount and post-trade statistics. -/
def run_daily_trace : List DailyEvent :=
  [.clear_daily_cache, .collect_pre_trading] ++ execute_lifecycle_trace ++
    [.process_dividend_events, .collect_trading_amounts, .collect_post_trading]

/-! ## The lots invariant (C1) -/

/-- Sum of the lot amounts of one symbol. -/
def lots_amount_sum (lots : List Lot) : ℚ := (lots.map Lot.amount).sum

@[simp] theorem lots_amount_sum_nil : lots_amount_sum [] = 0 := rfl

@[simp] theorem lots_amount_sum_cons (lot : Lot) (ls : List Lot) :
    lots_amount_sum (lot :: ls) = lot.amount + lots_amount_sum ls := by
  simp [lots_amount_sum]

@[simp] theorem lots_amount_sum_append (l₁ l₂ : List Lot) :
    lots_amount_sum (l₁ ++ l₂) = lots_amount_sum l₁ + lots_amount_sum l₂ := by
  simp [lots_amount_sum]

/-- The ledger invariant, strengthened for induction: every open
position has a lots entry whose amounts are positive and sum to the
position's amount. -/
def LotsWF (p : Portfolio) : Prop :=
  ∀ stock position, p.positions stock = some position →
    ∃ lots, p.position_lots stock = some lots ∧
      lots_amount_sum lots = position.amount ∧ ∀ lot ∈ lots, 0 < lot.amount

/-- FIFO consumption removes exactly `remaining` shares from the lot
list and keeps all surviving lot amounts positive. -/
theorem consumeLots_sum_pos (sell_date : ℤ) :
    ∀ (lots : List Lot) (remaining : ℚ), 0 ≤ remaining →
      remaining ≤ lots_amount_sum lots → (∀ lot ∈ lots, 0 < lot.amount) →
      lots_amount_sum (consumeLots sell_date lots remaining).1
          = lots_amount_sum lots - remaining ∧
        ∀ lot ∈ (consumeLots sell_date lots remaining).1, 0 < lot.amount := by
  intro lots
  induction lots with
  | nil =>
    intro remaining h0 hle _
    simp only [lots_amount_sum_nil] at hle
    have : remaining = 0 := le_antisymm hle h0
    subst this
    simp [consumeLots]
  | cons lot rest ih =>
    intro remaining h0 hle hpos
    by_cases hr : remaining ≤ 0
    · have : remaining = 0 := le_antisymm hr h0
      subst this
      simpa [consumeLots] using hpos
    · push_neg at hr
      by_cases hla : lot.amount ≤ remaining
      · have h0' : 0 ≤ remaining - lot.amount := by linarith
        have hle' : remaining - lot.amount ≤ lots_amount_sum rest := by
          simp only [lots_amount_sum_cons] at hle; linarith
        have hpos' : ∀ l ∈ rest, 0 < l.amount := fun l hl => hpos l (List.mem_cons_of_mem _ hl)
        obtain ⟨hsum, hp⟩ := ih (remaining - lot.amount) h0' hle' hpos'
        constructor
        · simp only [consumeLots, if_neg (not_le.mpr hr), if_pos hla]
          simp only [lots_amount_sum_cons]
          rw [hsum]; ring
        · simp only [consumeLots, if_neg (not_le.mpr hr), if_pos hla]
          exact hp
      · push_neg at hla
        constructor
        · simp only [consumeLots, if_neg (not_le.mpr hr), if_neg (not_le.mpr hla)]
          simp only [lots_amount_sum_cons]; ring
        · simp only [consumeLots, if_neg (not_le.mpr hr), if_neg (not_le.mpr hla)]
          intro l hl
          rcases List.mem_cons.mp hl with h | h
          · subst h; simpa using sub_pos.mpr hla
          · exact hpos l (List.mem_cons_of_mem _ h)

/-- `add_position` with a positive amount preserves the lots invariant. -/
theorem lotsWF_add_position (p : Portfolio) (stock : String) (amount price : ℚ)
    (date : ℤ) (hp : LotsWF p) (hamt : 0 < amount) :
    LotsWF (p.add_position stock amount price date) := by
  intro s pos hs
  rcases hpos : p.positions stock with _ | position
  · simp only [Portfolio.add_position, hpos] at hs ⊢
    by_cases hsk : s = stock
    · subst hsk
      rw [mapSet_same] at hs
      refine ⟨[⟨date, amount, [], 0⟩], by rw [mapSet_same], ?_, ?_⟩
      · cases hs; simp [Position.make]
      · intro l hl; rcases List.mem_singleton.mp hl with rfl; simpa using hamt
    · rw [mapSet_other _ _ _ _ hsk] at hs
      obtain ⟨lots, hl1, hl2, hl3⟩ := hp s pos hs
      exact ⟨lots, by rw [mapSet_other _ _ _ _ hsk]; exact hl1, hl2, hl3⟩
  · obtain ⟨lots0, hl0, hsum0, hpos0⟩ := hp stock position hpos
    simp only [Portfolio.add_position, hpos] at hs ⊢
    by_cases hsk : s = stock
    · subst hsk
      rw [mapSet_same] at hs
      refine ⟨lots0 ++ [⟨date, amount, [], 0⟩], ?_, ?_, ?_⟩
      · rw [mapSet_same, hl0]; simp
      · cases hs; simp [hsum0]
      · intro l hl
        rcases List.mem_append.mp hl with h | h
        · exact hpos0 l h
        · rcases List.mem_singleton.mp h with rfl; simpa using hamt
    · rw [mapSet_other _ _ _ _ hsk] at hs
      obtain ⟨lots, hl1, hl2, hl3⟩ := hp s pos hs
      exact ⟨lots, by rw [mapSet_other _ _ _ _ hsk]; exact hl1, hl2, hl3⟩

/-- A successful `remove_position` with a non-negative amount preserves
the lots invariant. -/
theorem lotsWF_remove_position (p : Portfolio) (stock : String) (amount : ℚ)
    (date : ℤ) (p' : Portfolio) (tax : ℚ) (hp : LotsWF p) (h0 : 0 ≤ amount)
    (h : p.remove_position stock amount date = .ok (p', tax)) : LotsWF p' := by
  rcases hpos : p.positions stock with _ | position
  · simp only [Portfolio.remove_position, hpos] at h
    cases h; exact hp
  · obtain ⟨lots0, hl0, hsum0, hpos0⟩ := hp stock position hpos
    simp only [Portfolio.remove_position, hpos] at h
    by_cases hgt : amount > position.amount
    · rw [if_pos hgt] at h; cases h
    · rw [if_neg hgt] at h
      push_neg at hgt
      have hle : amount ≤ lots_amount_sum lots0 := hsum0 ▸ hgt
      obtain ⟨hsum', hpos'⟩ := consumeLots_sum_pos date lots0 amount h0 hle hpos0
      simp only [Portfolio.calculate_dividend_tax, hl0] at h
      by_cases heq : position.amount = amount
      · rw [if_pos heq] at h
        cases h
        intro s pos hs
        dsimp only at hs ⊢
        by_cases hsk : s = stock
        · subst hsk; rw [mapDel_same] at hs; cases hs
        · rw [mapDel_other _ _ _ hsk] at hs
          obtain ⟨lots, hl1, hl2, hl3⟩ := hp s pos hs
          refine ⟨lots, ?_, hl2, hl3⟩
          rw [mapDel_other _ _ _ hsk, mapSet_other _ _ _ _ hsk]
          exact hl1
      · rw [if_neg heq] at h
        cases h
        intro s pos hs
        dsimp only at hs ⊢
        by_cases hsk : s = stock
        · subst hsk
          rw [mapSet_same] at hs
          cases hs
          refine ⟨(consumeLots date lots0 amount).1, by rw [mapSet_same], ?_, hpos'⟩
          rw [hsum', hsum0]
        · rw [mapSet_other _ _ _ _ hsk] at hs
          obtain ⟨lots, hl1, hl2, hl3⟩ := hp s pos hs
          exact ⟨lots, by rw [mapSet_other _ _ _ _ hsk]; exact hl1, hl2, hl3⟩

/-- `add_dividend` preserves the lots invariant (it never touches
amounts). -/
theorem lotsWF_add_dividend (p : Portfolio) (stock : String) (d : ℚ)
    (hp : LotsWF p) : LotsWF (p.add_dividend stock d) := by
  rcases hlots : p.position_lots stock with _ | lots0
  · simpa only [Portfolio.add_dividend, hlots] using hp
  · intro s pos hs
    simp only [Portfolio.add_dividend, hlots] at hs ⊢
    obtain ⟨lots, hl1, hl2, hl3⟩ := hp s pos hs
    by_cases hsk : s = stock
    · subst hsk
      rw [hlots] at hl1
      cases hl1
      refine ⟨_, by rw [mapSet_same], ?_, ?_⟩
      · rw [← hl2]
        simp [lots_amount_sum, List.map_map, Function.comp_def]
      · intro l hl
        obtain ⟨l0, hl0, rfl⟩ := List.mem_map.mp hl
        exact hl3 l0 hl0
    · exact ⟨lots, by rw [mapSet_other _ _ _ _ hsk]; exact hl1, hl2, hl3⟩

/-- `processDividendForStock` preserves the lots invariant. -/
theorem lotsWF_processDividend (p : Portfolio) (stock : String) (d : ℚ)
    (hp : LotsWF p) : LotsWF (processDividendForStock p stock d) := by
  rcases hpos : p.positions stock with _ | position
  · simpa only [processDividendForStock, hpos] using hp
  · simp only [processDividendForStock, hpos]
    split
    · exact hp
    · split
      · refine lotsWF_add_dividend _ _ _ ?_
        intro s pos hs
        exact hp s pos hs
      · exact hp

/-- The ledger states reachable in a run: starting from a fresh
portfolio, the only mutations the engine performs on `positions` and
`_position_lots` are `add_position` on buys (always with a positive
amount), successful `remove_position` on sells (always with a
non-negative amount), `add_dividend` of dividend distribution, and
plain cash movements (order settlement debits/credits and dividend
credits, which never touch positions or lots). -/
inductive Reachable : Portfolio → Prop where
  | init (initial_capital : ℚ) : Reachable (Portfolio.make initial_capital)
  | set_cash (p : Portfolio) (c : ℚ) : Reachable p → Reachable { p with cash := c }
  | add_position (p : Portfolio) (stock : String) (amount price : ℚ) (date : ℤ) :
      Reachable p → 0 < amount → Reachable (p.add_position stock amount price date)
  | remove_position (p : Portfolio) (stock : String) (amount : ℚ) (date : ℤ)
      (p' : Portfolio) (tax : ℚ) :
      Reachable p → 0 ≤ amount → p.remove_position stock amount date = .ok (p', tax) →
      Reachable p'
  | add_dividend (p : Portfolio) (stock : String) (d : ℚ) :
      Reachable p → Reachable (p.add_dividend stock d)
  | process_dividend (p : Portfolio) (stock : String) (d : ℚ) :
      Reachable p → Reachable (processDividendForStock p stock d)

/-- Every reachable ledger satisfies the strengthened lots invariant. -/
theorem reachable_lotsWF (p : Portfolio) (hp : Reachable p) : LotsWF p := by
  induction hp with
  | init c => intro s pos hs; simp [Portfolio.make] at hs
  | set_cash p c _ ih => exact fun s pos hs => ih s pos hs
  | add_position p stock amount price date _ hamt ih =>
      exact lotsWF_add_position p stock amount price date ih hamt
  | remove_position p stock amount date p' tax _ h0 h ih =>
      exact lotsWF_remove_position p stock amount date p' tax ih h0 h
  | add_dividend p stock d _ ih => exact lotsWF_add_dividend p stock d ih
  | process_dividend p stock d _ ih => exact lotsWF_processDividend p stock d ih

/-! ## Cash and tax helper lemmas -/

theorem add_position_cash (p : Portfolio) (stock : String) (amount price : ℚ)
    (date : ℤ) : (p.add_position stock amount price date).cash = p.cash := by
  simp only [Portfolio.add_position]
  split <;> rfl

theorem add_dividend_cash (p : Portfolio) (stock : String) (d : ℚ) :
    (p.add_dividend stock d).cash = p.cash := by
  simp only [Portfolio.add_dividend]
  split <;> rfl

theorem remove_position_cash (p : Portfolio) (stock : String) (amount : ℚ)
    (date : ℤ) (p' : Portfolio) (tax : ℚ)
    (h : p.remove_position stock amount date = .ok (p', tax)) : p'.cash = p.cash := by
  rcases hpos : p.positions stock with _ | position
  · simp only [Portfolio.remove_position, hpos] at h
    cases h; rfl
  · simp only [Portfolio.remove_position, hpos] at h
    split at h
    · cases h
    · split at h <;> (cases h; rfl)

/-- FIFO consumption of lots that have received no dividends yields a
zero tax adjustment. -/
theorem add_dividend_lots (p : Portfolio) (stock : String) (d : ℚ) (lots : List Lot)
    (hlots : p.position_lots stock = some lots) :
    (p.add_dividend stock d).position_lots stock
      = some (lots.map fun lot =>
          ⟨lot.date, lot.amount, lot.dividends ++ [d * lot.amount],
           lot.dividends_total + d * lot.amount⟩) := by
  simp only [Portfolio.add_dividend, hlots, mapSet_same]

theorem consumeLots_tax_zero (sell_date : ℤ) :
    ∀ (lots : List Lot) (r : ℚ), (∀ lot ∈ lots, lot.dividends_total = 0) →
      (consumeLots sell_date lots r).2 = 0 := by
  intro lots
  induction lots with
  | nil => intro r _; simp [consumeLots]
  | cons lot rest ih =>
    intro r hz
    by_cases hr : r ≤ 0
    · simp [consumeLots, hr]
    · have h0 : lot.dividends_total = 0 := hz lot (List.mem_cons_self _ _)
      by_cases hla : lot.amount ≤ r
      · simp only [consumeLots, if_neg hr, if_pos hla, h0]
        rw [ih _ fun l hl => hz l (List.mem_cons_of_mem _ hl)]
        ring
      · simp [consumeLots, if_neg hr, if_neg hla, h0]

/-! ## Claim theorems -/

/-- **C1** — For every reachable ledger state and every symbol with an
open position, the position's amount equals the sum of the amounts of
that symbol's lots; reachability is closed under `add_position`,
`remove_position`, `add_dividend` (and the dividend-event processing and
plain cash movements), so the equality is preserved by every such
operation. -/
theorem claim_C1_position_amount_eq_lots_sum (p : Portfolio) (hp : Reachable p)
    (stock : String) (position : Position)
    (h : p.positions stock = some position) :
    ∃ lots, p.position_lots stock = some lots ∧
      lots_amount_sum lots = position.amount := by
  obtain ⟨lots, h1, h2, _⟩ := reachable_lotsWF p hp stock position h
  exact ⟨lots, h1, h2⟩

/-- Witness for C1: a concrete reachable ledger (buy 100, then buy 60
more, then sell 30) with an open position. -/
theorem claim_C1_witness :
    ∃ lots,
      (((Portfolio.make 10000).add_position "AAA" 100 10 0).add_position "AAA" 60 11 1).position_lots
          "AAA" = some lots ∧
        lots_amount_sum lots
          = ((((Portfolio.make 10000).add_position "AAA" 100 10 0).add_position "AAA" 60 11 1).positions
              "AAA").iget.amount :=
  claim_C1_position_amount_eq_lots_sum _
    (Reachable.add_position _ "AAA" 60 11 1
      (Reachable.add_position _ "AAA" 100 10 0 (Reachable.init 10000) (by norm_num))
      (by norm_num))
    "AAA" _ rfl

/-- **C7** — `set_phase` fails (with `PTradeLifecycleError`, the state
unchanged since the error is raised before any mutation) exactly when
the requested edge is absent from the transition table, and succeeds
updating the current phase otherwise; in particular
AfterTradingEnd → HandleData fails while
AfterTradingEnd → BeforeTradingStart succeeds. -/
theorem claim_C7_set_phase :
    (∀ st phase, (allowed_transitions st.current_phase).contains phase = false →
        set_phase st phase = .error "Invalid phase transition") ∧
    (∀ st phase, (allowed_transitions st.current_phase).contains phase = true →
        (set_phase st phase).map ControllerState.current_phase = .ok (some phase)) ∧
    (∀ ex, set_phase ⟨some .AFTER_TRADING_END, ex⟩ .HANDLE_DATA
        = .error "Invalid phase transition") ∧
    (∀ ex, (set_phase ⟨some .AFTER_TRADING_END, ex⟩ .BEFORE_TRADING_START).map
        ControllerState.current_phase = .ok (some .BEFORE_TRADING_START)) := by
  have h1 : ∀ st phase, (allowed_transitions st.current_phase).contains phase = false →
      set_phase st phase = .error "Invalid phase transition" := by
    intro st phase h; simp [set_phase, h]
  have h2 : ∀ st phase, (allowed_transitions st.current_phase).contains phase = true →
      (set_phase st phase).map ControllerState.current_phase = .ok (some phase) := by
    intro st phase h; simp [set_phase, h, Except.map]
  exact ⟨h1, h2, fun ex => h1 _ _ rfl, fun ex => h2 _ _ rfl⟩

/-- Witness for C7 at concrete inputs. -/
theorem claim_C7_witness :
    (set_phase ⟨some .AFTER_TRADING_END, []⟩ .HANDLE_DATA
        = .error "Invalid phase transition") ∧
    ((set_phase ⟨some .AFTER_TRADING_END, []⟩ .BEFORE_TRADING_START).map
        ControllerState.current_phase = .ok (some .BEFORE_TRADING_START)) ∧
    (set_phase ⟨some .INITIALIZE, [.INITIALIZE]⟩ .AFTER_TRADING_END
        = .error "Invalid phase transition") ∧
    ((set_phase ⟨none, []⟩ .INITIALIZE).map ControllerState.current_phase
        = .ok (some .INITIALIZE)) :=
  ⟨claim_C7_set_phase.1 ⟨some .AFTER_TRADING_END, []⟩ .HANDLE_DATA (by decide),
   claim_C7_set_phase.2.2.2 [],
   claim_C7_set_phase.1 ⟨some .INITIALIZE, [.INITIALIZE]⟩ .AFTER_TRADING_END (by decide),
   claim_C7_set_phase.2.1 ⟨none, []⟩ .INITIALIZE (by decide)⟩

/-- **C8 counterexample** — `remove_position` on a symbol with **no**
position does not fail with `InsufficientPositionError`: it silently
returns a 0.0 tax adjustment and an unchanged ledger (the requested
amount 10 certainly exceeds the holding of 0). -/
theorem claim_C8_counterexample :
    Portfolio.remove_position (Portfolio.make 1000) "AAA" 10 0
      = .ok (Portfolio.make 1000, 0) := rfl

/-- **C8 amended** — when a position exists, `remove_position` fails
(`ValueError`, raised before any mutation, hence ledger unchanged) iff
the requested amount exceeds the holding; when no position exists the
call returns tax adjustment 0.0 with the ledger unchanged instead of
failing. -/
theorem claim_C8_remove_position_errors :
    (∀ (p : Portfolio) (stock : String) (amount : ℚ) (date : ℤ) (position : Position),
        p.positions stock = some position → position.amount < amount →
        p.remove_position stock amount date
          = .error ("sell amount exceeds holding: " ++ stock)) ∧
    (∀ (p : Portfolio) (stock : String) (amount : ℚ) (date : ℤ),
        p.positions stock = none →
        p.remove_position stock amount date = .ok (p, 0)) := by
  constructor
  · intro p stock amount date position hpos hlt
    simp [Portfolio.remove_position, hpos, hlt]
  · intro p stock amount date hpos
    simp [Portfolio.remove_position, hpos]

/-- Witness for C8 at concrete inputs: a ledger holding 100 shares
rejects a 150-share sale; an empty ledger accepts any requested sale
with a zero adjustment. -/
theorem claim_C8_witness :
    ((Portfolio.make 0).add_position "BBB" 100 10 0).remove_position "BBB" 150 3
        = .error ("sell amount exceeds holding: " ++ "BBB") ∧
      Portfolio.remove_position (Portfolio.make 500) "CCC" 7 2 = .ok (Portfolio.make 500, 0) :=
  ⟨claim_C8_remove_position_errors.1 _ "BBB" 150 3 (Position.make 100 10) rfl
      (by norm_num [Position.make]),
   claim_C8_remove_position_errors.2 _ "CCC" 7 2 rfl⟩

/-- **C9 counterexample** — in the daily loop of
`StrategyEngine._run_daily_loop`, dividend processing does **not**
precede the transition to AfterTradingEnd: the transition (and its
callback) occur strictly before `_process_dividend_events`. -/
theorem claim_C9_counterexample :
    ¬ (run_daily_trace.indexOf DailyEvent.process_dividend_events
        < run_daily_trace.indexOf (DailyEvent.transition .AFTER_TRADING_END)) := by
  decide

/-- **C9 amended** — within every simulated trading day, dividend events
are applied after the HandleData callback completes, but only after the
transition to AfterTradingEnd and its callback invocation; they precede
the post-trade statistics collection. -/
theorem claim_C9_dividend_order :
    run_daily_trace.indexOf (DailyEvent.strategy_callback .HANDLE_DATA)
        < run_daily_trace.indexOf DailyEvent.process_dividend_events
    ∧ run_daily_trace.indexOf (DailyEvent.transition .AFTER_TRADING_END)
        < run_daily_trace.indexOf DailyEvent.process_dividend_events
    ∧ run_daily_trace.indexOf (DailyEvent.strategy_callback .AFTER_TRADING_END)
        < run_daily_trace.indexOf DailyEvent.process_dividend_events
    ∧ run_daily_trace.indexOf DailyEvent.process_dividend_events
        < run_daily_trace.indexOf DailyEvent.collect_trading_amounts
    ∧ run_daily_trace.indexOf DailyEvent.process_dividend_events
        < run_daily_trace.indexOf DailyEvent.collect_post_trading := by
  decide

/-- **C2** — FIFO consumption: selling 120 shares against lots
A (amount 100, date d1) then B (amount 50, date d2) deletes lot A
entirely and leaves lot B with amount 30, date d2, and the pro-rated
remainder `1 - 2/5` of its dividend total; in general a partially
consumed lot keeps `(1 - sold_fraction)` of its dividend total. -/
theorem claim_C2_fifo :
    (∀ (cash cost : ℚ) (d1 d2 : ℤ) (divsA divsB : List ℚ) (ta tb : ℚ) (sell_date : ℤ),
      (Portfolio.remove_position
          ⟨cash, mapSet (fun _ => none) "AAA" (Position.make 150 cost),
           mapSet (fun _ => none) "AAA" [⟨d1, 100, divsA, ta⟩, ⟨d2, 50, divsB, tb⟩]⟩
          "AAA" 120 sell_date).map
            (fun r => ((r.1.positions "AAA").map Position.amount, r.1.position_lots "AAA"))
        = .ok (some 30, some [⟨d2, 30, divsB, tb * (1 - 2/5)⟩])) ∧
    (∀ (sell_date : ℤ) (lot : Lot) (rest : List Lot) (remaining : ℚ),
      0 < remaining → remaining < lot.amount →
      (consumeLots sell_date (lot :: rest) remaining).1
        = ⟨lot.date, lot.amount - remaining, lot.dividends,
           lot.dividends_total * (1 - remaining / lot.amount)⟩ :: rest) := by
  constructor
  · intro cash cost d1 d2 divsA divsB ta tb sell_date
    have hcons : (consumeLots sell_date [⟨d1, 100, divsA, ta⟩, ⟨d2, 50, divsB, tb⟩] (120:ℚ)).1
        = [⟨d2, 30, divsB, tb * (1 - 2/5)⟩] := by
      simp only [consumeLots]
      norm_num [min_def]
    norm_num [Portfolio.remove_position, Portfolio.calculate_dividend_tax,
      Position.make, hcons, Except.map, mapSet]
  · intro sell_date lot rest remaining h0 hlt
    simp only [consumeLots, if_neg (not_le.mpr h0), if_neg (not_le.mpr hlt)]
    rw [min_eq_left (le_of_lt hlt)]

/-- Witness for C2 at concrete inputs (dates 0 and 3, dividend totals
40 and 10, sale on day 5; the general pro-rating conjunct applied to a
lot of 50 with 20 sold). -/
theorem claim_C2_witness :
    ((Portfolio.remove_position
        ⟨1000, mapSet (fun _ => none) "AAA" (Position.make 150 9),
         mapSet (fun _ => none) "AAA" [⟨0, 100, [40], 40⟩, ⟨3, 50, [10], 10⟩]⟩
        "AAA" 120 5).map
          (fun r => ((r.1.positions "AAA").map Position.amount, r.1.position_lots "AAA"))
      = .ok (some 30, some [⟨3, 30, [10], 10 * (1 - 2/5)⟩])) ∧
    (consumeLots 5 [⟨3, 50, [10], 10⟩] 20).1
      = [⟨3, 50 - 20, [10], 10 * (1 - 20 / 50)⟩] :=
  ⟨claim_C2_fifo.1 1000 9 0 3 [40] [10] 40 10 5,
   claim_C2_fifo.2 5 ⟨3, 50, [10], 10⟩ [] 20 (by norm_num) (by norm_num)⟩

/-- `execute_sell` on a sufficient holding always succeeds and credits
exactly `revenue - commission - tax_adjustment` to cash. -/
theorem execute_sell_cash_eq (tp : TradingParams) (p : Portfolio) (stock : String)
    (amount price : ℚ) (dt : ℤ) (pos : Position)
    (hpos : p.positions stock = some pos) (hle : amount ≤ pos.amount) :
    (execute_sell tp p stock amount price dt).map (fun r => (r.1.cash, r.2))
      = .ok (p.cash + (amount * price - calculate_commission tp amount price true
              - (p.calculate_dividend_tax stock amount dt).2), true) := by
  simp only [execute_sell, Portfolio.remove_position, hpos,
    if_neg (not_lt.mpr hle), if_neg (not_lt.mpr hle)]
  by_cases heq : pos.amount = amount
  · rw [if_pos heq]
    simp only [Except.map, mapDel_same, Except.ok.injEq, Prod.mk.injEq, and_true]
  · rw [if_neg heq]
    simp only [Except.map, mapSet_same]

/-- **C3** — dividend accounting: (i) paying a dividend of `d` per share
pre-tax on an open position of `a` shares credits exactly `d * 0.80 * a`
to cash (flat 20% withholding); (ii) every lot's dividend total grows by
the pre-tax per-share amount times the lot amount; (iii) on a later sale
fully consuming a lot, the adjustment is
`dividends_total * (actual_rate - 0.20)` with the rate 20% for holding
≤ 30 days, 10% for ≤ 365 days, 0% beyond; (iv) on a sale consuming only
`remaining < lot.amount` of a lot, the adjustment for that lot is
`dividends_total * sold_fraction * (actual_rate - 0.20)` with
`sold_fraction = remaining / lot.amount`; (v) after more than 365 days
the adjustment is `t * (0 - 0.20) < 0`, a refund; (vi) a 120-share sale
against a lot of 100 (total `ta`) followed by a lot of 50 (total `tb`)
returns the adjustment `ta * (rate1 - 0.20) + tb * (2/5) * (rate2 -
0.20)`, summing the full-lot and partial-lot terms; (vii)
`execute_sell` credits `revenue - commission - tax_adjustment`, so a
negative adjustment is credited with the sale proceeds. -/
theorem claim_C3_dividend_accounting :
    (∀ (p : Portfolio) (stock : String) (pos : Position) (d : ℚ),
        p.positions stock = some pos → 0 < pos.amount → 0 < d →
        (processDividendForStock p stock d).cash = p.cash + d * (4/5) * pos.amount) ∧
    (∀ (p : Portfolio) (stock : String) (pos : Position) (d : ℚ) (lots : List Lot),
        p.positions stock = some pos → 0 < pos.amount → 0 < d →
        p.position_lots stock = some lots →
        (processDividendForStock p stock d).position_lots stock
          = some (lots.map fun lot =>
              ⟨lot.date, lot.amount, lot.dividends ++ [d * lot.amount],
               lot.dividends_total + d * lot.amount⟩)) ∧
    (∀ (sell_date dt : ℤ) (a : ℚ) (divs : List ℚ) (t : ℚ), 0 < a →
        (consumeLots sell_date [⟨dt, a, divs, t⟩] a).2
          = t * ((if sell_date - dt ≤ 30 then (1:ℚ)/5
                  else if sell_date - dt ≤ 365 then 1/10 else 0) - 1/5)) ∧
    (∀ (sell_date : ℤ) (lot : Lot) (rest : List Lot) (remaining : ℚ),
        0 < remaining → remaining < lot.amount →
        (consumeLots sell_date (lot :: rest) remaining).2
          = lot.dividends_total * (remaining / lot.amount)
              * ((if sell_date - lot.date ≤ 30 then (1:ℚ)/5
                  else if sell_date - lot.date ≤ 365 then 1/10 else 0) - 1/5)) ∧
    (∀ (sell_date dt : ℤ) (a : ℚ) (divs : List ℚ) (t : ℚ), 0 < a → 0 < t →
        365 < sell_date - dt →
        (consumeLots sell_date [⟨dt, a, divs, t⟩] a).2 = t * (0 - 1/5) ∧
          (consumeLots sell_date [⟨dt, a, divs, t⟩] a).2 < 0) ∧
    (∀ (cash cost : ℚ) (d1 d2 : ℤ) (divsA divsB : List ℚ) (ta tb : ℚ) (sell_date : ℤ),
        (Portfolio.remove_position
            ⟨cash, mapSet (fun _ => none) "AAA" (Position.make 150 cost),
             mapSet (fun _ => none) "AAA" [⟨d1, 100, divsA, ta⟩, ⟨d2, 50, divsB, tb⟩]⟩
            "AAA" 120 sell_date).map (fun r => r.2)
          = .ok (ta * ((if sell_date - d1 ≤ 30 then (1:ℚ)/5
                        else if sell_date - d1 ≤ 365 then 1/10 else 0) - 1/5)
                 + tb * (2/5) * ((if sell_date - d2 ≤ 30 then (1:ℚ)/5
                        else if sell_date - d2 ≤ 365 then 1/10 else 0) - 1/5))) ∧
    (∀ (tp : TradingParams) (p : Portfolio) (stock : String) (amount price : ℚ)
        (dt : ℤ) (pos : Position),
        p.positions stock = some pos → amount ≤ pos.amount →
        (execute_sell tp p stock amount price dt).map (fun r => (r.1.cash, r.2))
          = .ok (p.cash + (amount * price - calculate_commission tp amount price true
                  - (p.calculate_dividend_tax stock amount dt).2), true)) := by
  have hfull : ∀ (sell_date dt : ℤ) (a : ℚ) (divs : List ℚ) (t : ℚ), 0 < a →
      (consumeLots sell_date [⟨dt, a, divs, t⟩] a).2
        = t * ((if sell_date - dt ≤ 30 then (1:ℚ)/5
                else if sell_date - dt ≤ 365 then 1/10 else 0) - 1/5) := by
    intro sell_date dt a divs t ha
    simp only [consumeLots, if_neg (not_le.mpr ha), if_pos (le_refl a), min_self]
    rw [div_self (ne_of_gt ha)]
    ring
  refine ⟨?_, ?_, hfull, ?_, ?_, ?_, ?_⟩
  · intro p stock pos d hpos ha hd
    have htot : d * (1 - (1:ℚ)/5) * pos.amount > 0 :=
      mul_pos (mul_pos hd (by norm_num)) ha
    simp only [processDividendForStock, hpos, if_neg (not_le.mpr ha), if_pos htot,
      add_dividend_cash]
    ring
  · intro p stock pos d lots hpos ha hd hlots
    have htot : d * (1 - (1:ℚ)/5) * pos.amount > 0 :=
      mul_pos (mul_pos hd (by norm_num)) ha
    simp only [processDividendForStock, hpos, if_neg (not_le.mpr ha), if_pos htot]
    exact add_dividend_lots _ stock d lots hlots
  · intro sell_date lot rest remaining h0 hlt
    simp only [consumeLots, if_neg (not_le.mpr h0), if_neg (not_le.mpr hlt)]
    rw [min_eq_left hlt.le]
  · intro sell_date dt a divs t ha ht h365
    have hrate : (if sell_date - dt ≤ 30 then (1:ℚ)/5
        else if sell_date - dt ≤ 365 then 1/10 else 0) = 0 := by
      rw [if_neg (by omega), if_neg (by omega)]
    constructor
    · rw [hfull sell_date dt a divs t ha, hrate]
    · rw [hfull sell_date dt a divs t ha, hrate]
      nlinarith
  · intro cash cost d1 d2 divsA divsB ta tb sell_date
    have hcons : (consumeLots sell_date
          [⟨d1, 100, divsA, ta⟩, ⟨d2, 50, divsB, tb⟩] (120:ℚ)).2
        = ta * ((if sell_date - d1 ≤ 30 then (1:ℚ)/5
                 else if sell_date - d1 ≤ 365 then 1/10 else 0) - 1/5)
          + tb * (2/5) * ((if sell_date - d2 ≤ 30 then (1:ℚ)/5
                 else if sell_date - d2 ≤ 365 then 1/10 else 0) - 1/5) := by
      simp only [consumeLots]
      norm_num [min_def]
    norm_num [Portfolio.remove_position, Portfolio.calculate_dividend_tax,
      Position.make, hcons, Except.map, mapSet]
  · intro tp p stock amount price dt pos hpos hle
    exact execute_sell_cash_eq tp p stock amount price dt pos hpos hle

/-- Witness for C3 at the spec's scenario: 100 shares bought at 10 on
day 0, a pre-tax dividend of 1.0 per share; cash is credited 80, the
lot's dividend total becomes 100; a full sale on day 10 adjusts by 0; a
partial sale of 20 out of a lot of 50 with dividend total 10 on day 100
adjusts by the sold fraction 2/5 of the total times (10% - 20%); a full
sale on day 400 adjusts by -20 (a refund); a 120-share sale against
lots of 100 (total 40) and 50 (total 10) on day 100 adjusts by the
full-lot and partial-lot terms summed; and `execute_sell` on day 400
credits the refund with the proceeds. -/
theorem claim_C3_witness :
    ((processDividendForStock
        ⟨0, mapSet (fun _ => none) "AAA" (Position.make 100 10),
         mapSet (fun _ => none) "AAA" [⟨0, 100, [], 0⟩]⟩ "AAA" 1).cash
      = 0 + 1 * (4/5) * (Position.make 100 10).amount) ∧
    ((processDividendForStock
        ⟨0, mapSet (fun _ => none) "AAA" (Position.make 100 10),
         mapSet (fun _ => none) "AAA" [⟨0, 100, [], 0⟩]⟩ "AAA" 1).position_lots "AAA"
      = some (([⟨0, 100, [], 0⟩] : List Lot).map fun lot =>
          (⟨lot.date, lot.amount, lot.dividends ++ [1 * lot.amount],
            lot.dividends_total + 1 * lot.amount⟩ : Lot))) ∧
    ((consumeLots 10 [⟨0, 100, [], 100⟩] 100).2
      = 100 * ((if (10:ℤ) - 0 ≤ 30 then (1:ℚ)/5
                else if (10:ℤ) - 0 ≤ 365 then 1/10 else 0) - 1/5)) ∧
    ((consumeLots 100 [⟨0, 50, [10], 10⟩] 20).2
      = 10 * (20 / 50) * ((if (100:ℤ) - 0 ≤ 30 then (1:ℚ)/5
                else if (100:ℤ) - 0 ≤ 365 then 1/10 else 0) - 1/5)) ∧
    ((consumeLots 400 [⟨0, 100, [], 100⟩] 100).2 = 100 * (0 - 1/5) ∧
      (consumeLots 400 [⟨0, 100, [], 100⟩] 100).2 < 0) ∧
    ((Portfolio.remove_position
        ⟨1000, mapSet (fun _ => none) "AAA" (Position.make 150 9),
         mapSet (fun _ => none) "AAA" [⟨0, 100, [40], 40⟩, ⟨3, 50, [10], 10⟩]⟩
        "AAA" 120 100).map (fun r => r.2)
      = .ok (40 * ((if (100:ℤ) - 0 ≤ 30 then (1:ℚ)/5
                    else if (100:ℤ) - 0 ≤ 365 then 1/10 else 0) - 1/5)
             + 10 * (2/5) * ((if (100:ℤ) - 3 ≤ 30 then (1:ℚ)/5
                    else if (100:ℤ) - 3 ≤ 365 then 1/10 else 0) - 1/5))) ∧
    ((execute_sell defaultTradingParams
        ⟨0, mapSet (fun _ => none) "AAA" (Position.make 100 10),
         mapSet (fun _ => none) "AAA" [⟨0, 100, [], 100⟩]⟩ "AAA" 100 12 400).map
          (fun r => (r.1.cash, r.2))
      = .ok (0 + (100 * 12 - calculate_commission defaultTradingParams 100 12 true
              - ((⟨0, mapSet (fun _ => none) "AAA" (Position.make 100 10),
                  mapSet (fun _ => none) "AAA" [⟨0, 100, [], 100⟩]⟩ :
                    Portfolio).calculate_dividend_tax "AAA" 100 400).2), true)) :=
  ⟨claim_C3_dividend_accounting.1 _ "AAA" (Position.make 100 10) 1 rfl
      (by norm_num [Position.make]) (by norm_num),
   claim_C3_dividend_accounting.2.1 _ "AAA" (Position.make 100 10) 1 [⟨0, 100, [], 0⟩] rfl
      (by norm_num [Position.make]) (by norm_num) rfl,
   claim_C3_dividend_accounting.2.2.1 10 0 100 [] 100 (by norm_num),
   claim_C3_dividend_accounting.2.2.2.1 100 ⟨0, 50, [10], 10⟩ [] 20
      (by norm_num) (by norm_num),
   claim_C3_dividend_accounting.2.2.2.2.1 400 0 100 [] 100 (by norm_num) (by norm_num)
      (by norm_num),
   claim_C3_dividend_accounting.2.2.2.2.2.1 1000 9 0 3 [40] [10] 40 10 100,
   claim_C3_dividend_accounting.2.2.2.2.2.2 defaultTradingParams _ "AAA" 100 12 400
      (Position.make 100 10) rfl (by norm_num [Position.make])⟩

/-- **C4 counterexample** — a successfully resolved sell order can leave
cash negative: with the default configuration (minimum commission 5.0),
selling 100 shares at price 0.01 from a ledger with zero cash succeeds
(`execute_sell` returns True) and leaves cash at -4.0010487. -/
theorem claim_C4_counterexample :
    (execute_sell defaultTradingParams
        ⟨0, mapSet (fun _ => none) "AAA" (Position.make 100 10),
         mapSet (fun _ => none) "AAA" [⟨0, 100, [], 0⟩]⟩ "AAA" 100 (1/100) 0).map
          (fun r => (r.1.cash, r.2))
      = .ok (-(40010487/10000000), true)
    ∧ (-(40010487/10000000) : ℚ) < 0 := by
  constructor
  · norm_num [execute_sell, Portfolio.remove_position, Portfolio.calculate_dividend_tax,
      consumeLots, calculate_commission, defaultTradingParams, Position.make,
      mapSet, mapDel, Except.map, min_def, max_def]
  · norm_num

/-- The blotter buy section never drives cash negative. -/
theorem blotter_buy_step_cash_nonneg (p : Portfolio) (order : BOrder) (a : ℤ)
    (c : ℚ) (dt : ℤ) (hcash : 0 ≤ p.cash) :
    0 ≤ (blotter_buy_step p order a c dt).portfolio.cash := by
  simp only [blotter_buy_step]
  split
  · rename_i hcost
    simpa only [add_position_cash] using sub_nonneg.mpr hcost
  · exact hcash

/-- The blotter sell section only credits cash, so it never drives cash
negative when held amounts are non-negative and the price is positive. -/
theorem blotter_sell_step_cash_nonneg (p : Portfolio) (order : BOrder) (a : ℤ)
    (c : ℚ) (dt : ℤ) (step : BlotterStep) (hcash : 0 ≤ p.cash) (hc : 0 < c)
    (hpos : ∀ s pos, p.positions s = some pos → 0 ≤ pos.amount)
    (h : blotter_sell_step p order a c dt = .ok step) :
    0 ≤ step.portfolio.cash := by
  rcases hfind : p.positions order.symbol with _ | position
  · simp only [blotter_sell_step, hfind] at h
    cases h; exact hcash
  · simp only [blotter_sell_step, hfind] at h
    rcases hrem : p.remove_position order.symbol position.amount dt with e | pr
    · rw [hrem] at h
      cases h
    · rw [hrem] at h
      dsimp only at h
      have hp1 : pr.1.cash = p.cash := remove_position_cash _ _ _ _ _ _ hrem
      have hamt : 0 ≤ position.amount := hpos _ _ hfind
      have hrev : 0 ≤ pr.1.cash + position.amount * c := by
        rw [hp1]
        have hm : 0 ≤ position.amount * c := mul_nonneg hamt (le_of_lt hc)
        linarith
      cases h
      dsimp only
      split
      · exact hrev
      · exact hrev

/-- In `Blotter.process_orders`, one order step never drives cash
negative: buys are guarded by `cost <= cash` and sells only credit
cash (held amounts are non-negative and the price is positive). -/
theorem blotter_cash_nonneg (tp : TradingParams) (p : Portfolio) (order : BOrder)
    (close_price : Option ℚ) (daily_volume : ℚ) (limit_status : ℤ) (dt : ℤ)
    (step : BlotterStep) (hcash : 0 ≤ p.cash)
    (hpos : ∀ s pos, p.positions s = some pos → 0 ≤ pos.amount)
    (h : blotter_process_order tp p order close_price daily_volume limit_status dt
          = .ok step) :
    0 ≤ step.portfolio.cash := by
  rcases close_price with _ | c
  · simp only [blotter_process_order] at h
    cases h; exact hcash
  · simp only [blotter_process_order] at h
    by_cases hc : c ≤ 0
    · rw [if_pos hc] at h; cases h; exact hcash
    · rw [if_neg hc] at h
      split at h
      · cases h; exact hcash
      · split at h
        · cases h; exact hcash
        · split at h
          · cases h; exact hcash
          · split at h
            · cases h
              exact blotter_buy_step_cash_nonneg p order _ c dt hcash
            · split at h
              · exact blotter_sell_step_cash_nonneg p order _ c dt step hcash
                  (lt_of_not_le hc) hpos h
              · cases h; exact hcash

/-- **C4 amended** — for every buy order, if
`trade_value + commission` exceeds cash the buy is rejected with the
ledger unchanged, else cash is debited by exactly
`trade_value + commission`; starting from non-negative cash, cash stays
non-negative after any `execute_buy` and after any order resolved by
`Blotter.process_orders` — but not after every successfully resolved
`execute_sell` (see the counterexample), so the safety holds for buys,
not for all orders. -/
theorem claim_C4_buy_cash_safety :
    (∀ (tp : TradingParams) (p : Portfolio) (stock : String) (amount price : ℚ) (dt : ℤ),
        amount * price + calculate_commission tp amount price false > p.cash →
        execute_buy tp p stock amount price dt = (p, false)) ∧
    (∀ (tp : TradingParams) (p : Portfolio) (stock : String) (amount price : ℚ) (dt : ℤ),
        amount * price + calculate_commission tp amount price false ≤ p.cash →
        (execute_buy tp p stock amount price dt).2 = true ∧
        (execute_buy tp p stock amount price dt).1.cash
          = p.cash - (amount * price + calculate_commission tp amount price false)) ∧
    (∀ (tp : TradingParams) (p : Portfolio) (stock : String) (amount price : ℚ) (dt : ℤ),
        0 ≤ p.cash → 0 ≤ (execute_buy tp p stock amount price dt).1.cash) ∧
    (∀ (tp : TradingParams) (p : Portfolio) (order : BOrder) (close_price : Option ℚ)
        (daily_volume : ℚ) (limit_status : ℤ) (dt : ℤ) (step : BlotterStep),
        0 ≤ p.cash → (∀ s pos, p.positions s = some pos → 0 ≤ pos.amount) →
        blotter_process_order tp p order close_price daily_volume limit_status dt
          = .ok step →
        0 ≤ step.portfolio.cash) := by
  refine ⟨?_, ?_, ?_, fun tp p o cp dv ls dt step h1 h2 h3 =>
    blotter_cash_nonneg tp p o cp dv ls dt step h1 h2 h3⟩
  · intro tp p stock amount price dt hgt
    simp only [execute_buy, if_pos hgt]
  · intro tp p stock amount price dt hle
    constructor
    · simp only [execute_buy, if_neg (not_lt.mpr hle)]
    · simp only [execute_buy, if_neg (not_lt.mpr hle), add_position_cash]
  · intro tp p stock amount price dt hc
    by_cases hgt : amount * price + calculate_commission tp amount price false > p.cash
    · simp only [execute_buy, if_pos hgt]; exact hc
    · simp only [execute_buy, if_neg hgt, add_position_cash]
      exact sub_nonneg.mpr (not_lt.mp hgt)

/-- A no-fee configuration used to witness the buy-side cash laws. -/
def zeroCommissionParams : TradingParams := ⟨0, 5, 0, 0, 1/4, "LIMIT", 1/1000⟩

/-- Witness for the amended C4 at concrete inputs. -/
theorem claim_C4_witness :
    execute_buy zeroCommissionParams (Portfolio.make 50) "AAA" 10 10 0
        = (Portfolio.make 50, false) ∧
      ((execute_buy zeroCommissionParams (Portfolio.make 1000) "AAA" 10 10 0).2 = true ∧
        (execute_buy zeroCommissionParams (Portfolio.make 1000) "AAA" 10 10 0).1.cash
          = (Portfolio.make 1000).cash
              - (10 * 10 + calculate_commission zeroCommissionParams 10 10 false)) ∧
      (0 ≤ (execute_buy zeroCommissionParams (Portfolio.make 1000) "AAA" 10 10 0).1.cash) ∧
      (0 ≤ (⟨Portfolio.make 5, ⟨"AAA", 1, 0, "0"⟩, false, true⟩ : BlotterStep).portfolio.cash) :=
  ⟨claim_C4_buy_cash_safety.1 zeroCommissionParams _ "AAA" 10 10 0
      (by norm_num [calculate_commission, zeroCommissionParams, Portfolio.make]),
   claim_C4_buy_cash_safety.2.1 zeroCommissionParams _ "AAA" 10 10 0
      (by norm_num [calculate_commission, zeroCommissionParams, Portfolio.make]),
   claim_C4_buy_cash_safety.2.2.1 zeroCommissionParams _ "AAA" 10 10 0
      (by norm_num [Portfolio.make]),
   claim_C4_buy_cash_safety.2.2.2 zeroCommissionParams (Portfolio.make 5) ⟨"AAA", 1, 0, "0"⟩
      (some 10) 1000 0 0 ⟨Portfolio.make 5, ⟨"AAA", 1, 0, "0"⟩, false, true⟩
      (by norm_num [Portfolio.make])
      (by intro s pos hsp; simp [Portfolio.make] at hsp)
      (by norm_num [blotter_process_order, blotter_max_allowed, blotter_actual_amount,
            blotter_buy_step, pyIntOfRat, zeroCommissionParams, Portfolio.make])⟩

/-- **C5 counterexample** — a volume-capped buy (daily_volume 1000,
volume_ratio 0.25, requested 500) executes the partial fill of 250 but
ends with status `filled`, not `partially-filled`. -/
theorem claim_C5_counterexample :
    (blotter_process_order defaultTradingParams (Portfolio.make 1000000)
        ⟨"AAA", 500, 0, "0"⟩ (some 10) 1000 0 0).map
          (fun s => (s.order.status, s.order.filled, s.portfolio.cash))
      = .ok ("filled", 250, 997500)
    ∧ ("filled" : String) ≠ "partially-filled" := by
  constructor
  · norm_num [blotter_process_order, blotter_max_allowed, blotter_actual_amount,
      blotter_buy_step, pyIntOfRat, defaultTradingParams, Portfolio.make,
      Portfolio.add_position, mapSet, Position.make, Except.map]
  · decide

/-- **C5 amended** — in LIMIT mode with
`max_allowed = floor(daily_volume * volume_ratio)`: a buy with
`|requested| > max_allowed > 0` and sufficient cash executes a partial
fill of exactly `max_allowed` shares with status `filled` (not
`partially-filled`) and `filled = max_allowed`; if the cap binds with
`max_allowed <= 0` the order fails with no ledger mutation; in
UNLIMITED mode the cap is not applied and a funded buy fills the whole
requested amount. -/
theorem claim_C5_volume_cap :
    (∀ (tp : TradingParams) (p : Portfolio) (order : BOrder) (c dv : ℚ) (ls dt : ℤ),
        tp.limit_mode = "LIMIT" →
        |order.amount| > blotter_max_allowed tp dv →
        0 < blotter_max_allowed tp dv →
        0 < order.amount → ls ≠ 1 → 0 < c →
        ((blotter_max_allowed tp dv : ℚ)) * c ≤ p.cash →
        blotter_process_order tp p order (some c) dv ls dt
          = .ok ⟨Portfolio.add_position
                   { p with cash := p.cash - (blotter_max_allowed tp dv : ℚ) * c }
                   order.symbol ((blotter_max_allowed tp dv : ℚ)) c dt,
                 { order with status := "filled", filled := blotter_max_allowed tp dv },
                 true, true⟩) ∧
    (∀ (tp : TradingParams) (p : Portfolio) (order : BOrder) (c dv : ℚ) (ls dt : ℤ),
        tp.limit_mode = "LIMIT" →
        |order.amount| > blotter_max_allowed tp dv →
        ¬ 0 < blotter_max_allowed tp dv → 0 < c →
        blotter_process_order tp p order (some c) dv ls dt
          = .ok ⟨p, { order with status := "failed" }, false, true⟩) ∧
    (∀ (tp : TradingParams) (p : Portfolio) (order : BOrder) (c dv : ℚ) (ls dt : ℤ),
        tp.limit_mode = "UNLIMITED" →
        0 < order.amount → ls ≠ 1 → 0 < c →
        ((order.amount : ℚ)) * c ≤ p.cash →
        blotter_process_order tp p order (some c) dv ls dt
          = .ok ⟨Portfolio.add_position { p with cash := p.cash - (order.amount : ℚ) * c }
                   order.symbol ((order.amount : ℚ)) c dt,
                 { order with status := "filled", filled := order.amount }, true, true⟩) := by
  refine ⟨?_, ?_, ?_⟩
  · intro tp p order c dv ls dt hmode hcap hM hpos hls hc hcost
    have hact : blotter_actual_amount tp order dv = blotter_max_allowed tp dv := by
      rw [blotter_actual_amount, if_pos ⟨hmode, hcap⟩, if_pos hpos]
    simp only [blotter_process_order, if_neg (not_le.mpr hc), hact]
    rw [if_neg (fun hand => hand.2.2 hM), if_neg (fun hand => hls hand.2),
      if_neg (fun hand => (lt_asymm hand.1) hpos), if_pos hM]
    simp only [blotter_buy_step]
    rw [if_pos hcost]
  · intro tp p order c dv ls dt hmode hcap hM hc
    simp only [blotter_process_order, if_neg (not_le.mpr hc)]
    rw [if_pos ⟨hmode, hcap, hM⟩]
  · intro tp p order c dv ls dt hmode hpos hls hc hcost
    have hne : ¬ (tp.limit_mode = "LIMIT"
        ∧ |order.amount| > blotter_max_allowed tp dv) := by
      rw [hmode]
      exact fun hand => absurd hand.1 (by decide)
    have hact : blotter_actual_amount tp order dv = order.amount := by
      rw [blotter_actual_amount, if_neg hne]
    simp only [blotter_process_order, if_neg (not_le.mpr hc), hact]
    rw [if_neg (fun hand => hne ⟨hand.1, hand.2.1⟩), if_neg (fun hand => hls hand.2),
      if_neg (fun hand => (lt_asymm hand.1) hpos), if_pos hpos]
    simp only [blotter_buy_step]
    rw [if_pos hcost]

/-- An UNLIMITED-mode no-fee configuration. -/
def unlimitedParams : TradingParams := ⟨0, 5, 0, 0, 1/4, "UNLIMITED", 1/1000⟩

/-- Witness for the amended C5 at concrete inputs (cap 250 on a 500-share
buy; cap 0 on a 5-share order; UNLIMITED full fill of 500). -/
theorem claim_C5_witness :
    blotter_process_order defaultTradingParams (Portfolio.make 1000000)
        ⟨"AAA", 500, 0, "0"⟩ (some 10) 1000 0 0
      = .ok ⟨Portfolio.add_position
               { Portfolio.make 1000000 with
                 cash := (Portfolio.make 1000000).cash
                   - (blotter_max_allowed defaultTradingParams 1000 : ℚ) * 10 }
               "AAA" ((blotter_max_allowed defaultTradingParams 1000 : ℚ)) 10 0,
             ⟨"AAA", 500, blotter_max_allowed defaultTradingParams 1000, "filled"⟩,
             true, true⟩
    ∧ blotter_process_order defaultTradingParams (Portfolio.make 100)
        ⟨"BBB", 5, 0, "0"⟩ (some 10) 2 0 0
      = .ok ⟨Portfolio.make 100, ⟨"BBB", 5, 0, "failed"⟩, false, true⟩
    ∧ blotter_process_order unlimitedParams (Portfolio.make 1000000)
        ⟨"CCC", 500, 0, "0"⟩ (some 10) 1000 0 0
      = .ok ⟨Portfolio.add_position
               { Portfolio.make 1000000 with
                 cash := (Portfolio.make 1000000).cash - ((500 : ℤ) : ℚ) * 10 }
               "CCC" (((500 : ℤ) : ℚ)) 10 0,
             ⟨"CCC", 500, 500, "filled"⟩, true, true⟩ :=
  ⟨claim_C5_volume_cap.1 defaultTradingParams _ _ 10 1000 0 0 rfl
      (by norm_num [blotter_max_allowed, pyIntOfRat, defaultTradingParams])
      (by norm_num [blotter_max_allowed, pyIntOfRat, defaultTradingParams])
      (by norm_num) (by decide) (by norm_num)
      (by norm_num [blotter_max_allowed, pyIntOfRat, defaultTradingParams, Portfolio.make]),
   claim_C5_volume_cap.2.1 defaultTradingParams _ _ 10 2 0 0 rfl
      (by norm_num [blotter_max_allowed, pyIntOfRat, defaultTradingParams])
      (by norm_num [blotter_max_allowed, pyIntOfRat, defaultTradingParams])
      (by norm_num),
   claim_C5_volume_cap.2.2 unlimitedParams _ _ 10 1000 0 0 rfl
      (by norm_num) (by decide) (by norm_num)
      (by norm_num [Portfolio.make])⟩

/-- A no-fee configuration with proportional slippage 0.001. -/
def proportionalNoFeeParams : TradingParams := ⟨0, 5, 1/1000, 0, 1/4, "LIMIT", 1/1000⟩

/-- **C6 counterexample** — a sell resolved through
`OrderProcessor.process_order` does *not* execute at
`base_price - slippage_amount`: `process_order` calls
`get_execution_price(stock, limit_price)` with `is_buy` left at its
default `True`, so the sell of 100 shares at limit 10 with proportional
slippage 0.001 and zero commission credits `100 * 10.005 = 1000.5`,
while the claimed sell-side price 9.995 would credit 999.5. -/
theorem claim_C6_counterexample :
    (process_order proportionalNoFeeParams
        ⟨0, mapSet (fun _ => none) "AAA" (Position.make 100 10),
         mapSet (fun _ => none) "AAA" [⟨0, 100, [], 0⟩]⟩ "AAA" 0 (some 10) none 0 0).map
          (fun r => (r.1.cash, r.2))
      = .ok (2001/2, true)
    ∧ get_execution_price proportionalNoFeeParams (some 10) none false = some (1999/200)
    ∧ (2001/2 : ℚ) ≠ 0 + 100 * (1999/200) := by
  refine ⟨?_, ?_, by norm_num⟩
  · norm_num [process_order, get_execution_price, execute_sell, Portfolio.remove_position,
      Portfolio.calculate_dividend_tax, consumeLots, calculate_commission,
      proportionalNoFeeParams, Position.make, mapSet, mapDel, Except.map, min_def, max_def]
  · norm_num [get_execution_price, proportionalNoFeeParams]

/-- **C6 amended** — `get_execution_price` itself implements the claimed
rule: base price (the limit price when given) adjusted by
`base * s / 2` when proportional slippage `s > 0`, else `f / 2` when
fixed slippage `f > 0`, else 0, added for `is_buy = True` and subtracted
for `is_buy = False`.  However `process_order` requests the price with
`is_buy` left at its default `True` for sells as well, so an order
resolved through `process_order` executes at `base + slippage_amount`
regardless of side: a sell of the whole position credits
`amount * (base + base * s / 2)`. -/
theorem claim_C6_slippage :
    (∀ (tp : TradingParams) (base : ℚ) (cp : Option ℚ),
        0 < tp.slippage →
        get_execution_price tp (some base) cp true = some (base + base * tp.slippage / 2) ∧
        get_execution_price tp (some base) cp false = some (base - base * tp.slippage / 2)) ∧
    (∀ (tp : TradingParams) (base : ℚ) (cp : Option ℚ),
        ¬ 0 < tp.slippage → 0 < tp.fixed_slippage →
        get_execution_price tp (some base) cp true = some (base + tp.fixed_slippage / 2) ∧
        get_execution_price tp (some base) cp false = some (base - tp.fixed_slippage / 2)) ∧
    (∀ (tp : TradingParams) (base : ℚ) (cp : Option ℚ),
        ¬ 0 < tp.slippage → ¬ 0 < tp.fixed_slippage →
        get_execution_price tp (some base) cp true = some (base + 0) ∧
        get_execution_price tp (some base) cp false = some (base - 0)) ∧
    (∀ (tp : TradingParams) (p : Portfolio) (stock : String) (position : Position)
        (lots : List Lot) (base : ℚ) (ls dt : ℤ),
        tp.commission_ratio = 0 → 0 < tp.slippage →
        p.positions stock = some position → 0 < position.amount →
        p.position_lots stock = some lots →
        (∀ lot ∈ lots, lot.dividends_total = 0) → ls ≠ -1 →
        (process_order tp p stock 0 (some base) none ls dt).map (fun r => (r.1.cash, r.2))
          = .ok (p.cash + position.amount * (base + base * tp.slippage / 2), true)) := by
  refine ⟨?_, ?_, ?_, ?_⟩
  · intro tp base cp hs
    constructor <;> simp [get_execution_price, if_pos hs]
  · intro tp base cp hs hf
    constructor <;> simp [get_execution_price, if_neg hs, if_pos hf]
  · intro tp base cp hs hf
    constructor <;> simp [get_execution_price, if_neg hs, if_neg hf]
  · intro tp p stock position lots base ls dt hzero hs hpos hamt hlots hdiv hls
    have hprice : get_execution_price tp (some base) none true
        = some (base + base * tp.slippage / 2) := by
      simp [get_execution_price, if_pos hs]
    have htax : (p.calculate_dividend_tax stock position.amount dt).2 = 0 := by
      simp only [Portfolio.calculate_dividend_tax, hlots]
      exact consumeLots_tax_zero dt lots position.amount hdiv
    have hcomm : calculate_commission tp position.amount
        (base + base * tp.slippage / 2) true = 0 := by
      simp [calculate_commission, hzero]
    have habs : |0 - position.amount| = position.amount := by
      rw [zero_sub, abs_neg, abs_of_pos hamt]
    have hdelta : ¬ (0 - position.amount = 0) := by
      rw [zero_sub, neg_eq_zero]
      exact hamt.ne'
    have hdneg : ¬ (0 - position.amount > 0) := by
      rw [zero_sub]
      exact not_lt.mpr (neg_nonpos.mpr hamt.le)
    simp only [process_order, hprice, hpos]
    rw [if_neg hdelta, if_neg (fun hand => hdneg hand.1), if_neg (fun hand => hls hand.2),
      if_neg hdneg, habs]
    rw [execute_sell_cash_eq tp p stock position.amount _ dt position hpos le_rfl,
      htax, hcomm]
    norm_num

/-- Witness for the amended C6 at concrete inputs. -/
theorem claim_C6_witness :
    (get_execution_price proportionalNoFeeParams (some 10) none true
        = some (10 + 10 * proportionalNoFeeParams.slippage / 2) ∧
      get_execution_price proportionalNoFeeParams (some 10) none false
        = some (10 - 10 * proportionalNoFeeParams.slippage / 2)) ∧
    (get_execution_price (⟨0, 5, 0, 3, 1/4, "LIMIT", 1/1000⟩ : TradingParams)
        (some 10) none true = some (10 + 3 / 2) ∧
      get_execution_price (⟨0, 5, 0, 3, 1/4, "LIMIT", 1/1000⟩ : TradingParams)
        (some 10) none false = some (10 - 3 / 2)) ∧
    (get_execution_price zeroCommissionParams (some 10) none true = some (10 + 0) ∧
      get_execution_price zeroCommissionParams (some 10) none false = some (10 - 0)) ∧
    ((process_order proportionalNoFeeParams
        ⟨0, mapSet (fun _ => none) "AAA" (Position.make 100 10),
         mapSet (fun _ => none) "AAA" [⟨0, 100, [], 0⟩]⟩ "AAA" 0 (some 10) none 0 5).map
          (fun r => (r.1.cash, r.2))
      = .ok (0 + (Position.make 100 10).amount
              * (10 + 10 * proportionalNoFeeParams.slippage / 2), true)) :=
  ⟨claim_C6_slippage.1 proportionalNoFeeParams 10 none (by norm_num [proportionalNoFeeParams]),
   claim_C6_slippage.2.1 _ 10 none (by norm_num) (by norm_num),
   claim_C6_slippage.2.2.1 zeroCommissionParams 10 none
      (by norm_num [zeroCommissionParams]) (by norm_num [zeroCommissionParams]),
   claim_C6_slippage.2.2.2 proportionalNoFeeParams _ "AAA" (Position.make 100 10)
      [⟨0, 100, [], 0⟩] 10 0 5 rfl (by norm_num [proportionalNoFeeParams]) rfl
      (by norm_num [Position.make]) rfl
      (by intro lot hl; rcases List.mem_singleton.mp hl with rfl; rfl)
      (by decide)⟩

/-- Removing exactly the held amount always succeeds and deletes the
position and its lots. -/
theorem remove_position_self (p : Portfolio) (stock : String) (position : Position)
    (date : ℤ) (hpos : p.positions stock = some position) :
    ∃ tax, p.remove_position stock position.amount date
      = .ok ({ p with
               positions := mapDel p.positions stock,
               position_lots :=
                 mapDel (p.calculate_dividend_tax stock position.amount date).1 stock },
             tax) := by
  simp only [Portfolio.remove_position, hpos, if_neg (lt_irrefl position.amount),
    if_pos rfl]
  exact ⟨_, rfl⟩

/-- **C10** — when `Blotter.process_orders` executes a sell against a
held position (here under a binding LIMIT-mode volume cap), it removes
the *entire* held position, credits cash with exactly
`position.amount * close_price` (no commission, slippage or stamp tax),
marks the order `filled`, and sets `filled` to the capped requested
amount `-max_allowed` rather than the quantity actually removed. -/
theorem claim_C10_blotter_sell (tp : TradingParams) (p : Portfolio) (order : BOrder)
    (c dv : ℚ) (ls dt : ℤ) (position : Position)
    (hmode : tp.limit_mode = "LIMIT")
    (hcap : |order.amount| > blotter_max_allowed tp dv)
    (hM : 0 < blotter_max_allowed tp dv)
    (hneg : order.amount < 0) (hls : ls ≠ -1) (hc : 0 < c)
    (hfind : p.positions order.symbol = some position) :
    (blotter_process_order tp p order (some c) dv ls dt).map
        (fun s => (s.portfolio.cash, s.portfolio.positions order.symbol,
                   s.portfolio.position_lots order.symbol,
                   s.order.status, s.order.filled, s.executed, s.removed))
      = .ok (p.cash + position.amount * c, none, none, "filled",
             -(blotter_max_allowed tp dv), true, true) := by
  obtain ⟨tax, hrem⟩ := remove_position_self p order.symbol position dt hfind
  have hact : blotter_actual_amount tp order dv = -(blotter_max_allowed tp dv) := by
    rw [blotter_actual_amount, if_pos ⟨hmode, hcap⟩, if_neg (not_lt.mpr hneg.le)]
  simp only [blotter_process_order, if_neg (not_le.mpr hc), hact]
  rw [if_neg (fun hand => hand.2.2 hM), if_neg (fun hand => (lt_asymm hand.1) (by omega)),
    if_neg (fun hand => hls hand.2), if_neg (not_lt.mpr (by omega)), if_pos (by omega)]
  simp only [blotter_sell_step, hfind, hrem, mapDel_same, Except.map]

/-- Witness for C10 at concrete inputs: 100 held shares, a capped sell
request of 300 (cap 250), close 10: the whole 100 shares are removed,
cash is credited 1000 gross, and the order reads filled = -250. -/
theorem claim_C10_witness :
    (blotter_process_order defaultTradingParams
        ⟨7, mapSet (fun _ => none) "AAA" (Position.make 100 10),
         mapSet (fun _ => none) "AAA" [⟨0, 100, [], 0⟩]⟩
        ⟨"AAA", -300, 0, "0"⟩ (some 10) 1000 0 5).map
          (fun s => (s.portfolio.cash, s.portfolio.positions "AAA",
                     s.portfolio.position_lots "AAA",
                     s.order.status, s.order.filled, s.executed, s.removed))
      = .ok (7 + (Position.make 100 10).amount * 10, none, none, "filled",
             -(blotter_max_allowed defaultTradingParams 1000), true, true) :=
  claim_C10_blotter_sell defaultTradingParams _ ⟨"AAA", -300, 0, "0"⟩ 10 1000 0 5
    (Position.make 100 10) rfl
    (by norm_num [blotter_max_allowed, pyIntOfRat, defaultTradingParams])
    (by norm_num [blotter_max_allowed, pyIntOfRat, defaultTradingParams])
    (by norm_num) (by decide) (by norm_num) rfl

end SimTradeLab
